import Mathlib

/-!
Verification of the BN254 base-field arithmetic (`bn256/fq.rs` of halo2curves).

The field element type `Fq` stores four little-endian 64-bit limbs holding a
value `v < q` in Montgomery form (`v = a·R mod q`, `R = 2^256`).  We embed a
limb vector by its 256-bit integer value (a `Nat`), and each operation of the
source as a function on such values.  Operations whose bodies live in the
`field_common!` / `field_arithmetic!` macros or in `serde.rs` (not part of the
sources under verification) are modelled from the specification and are marked
as such in their doc comments.
-/

set_option maxRecDepth 100000

/-- Modulus of the BN254 base field, as in the `MODULUS` constant of the source. -/
def qFq : Nat := 0x30644e72e131a029b85045b68181585d97816a916871ca8d3c208c16d87cfd47

/-- Fuelled fast modular exponentiation, used to check the concrete
exponentiations appearing in the primality certificate for `qFq`. -/
def powModF : Nat → Nat → Nat → Nat → Nat
  | 0, _, _, n => 1 % n
  | f+1, a, e, n =>
    if e = 0 then 1 % n
    else
      let h := powModF f a (e / 2) n
      let h2 := h * h % n
      if e % 2 = 1 then h2 * a % n else h2

/-- Value of a little-endian byte list: `leNat [b0, b1, …] = b0 + 256·b1 + …`. -/
def leNat : List Nat → Nat
  | [] => 0
  | b :: bs => b + 256 * leNat bs

/-- Little-endian serialization of `v` on `n` bytes. -/
def leBytes : Nat → Nat → List Nat
  | 0, _ => []
  | n+1, v => v % 256 :: leBytes n (v / 256)

/-- Integer value of a four-limb little-endian `u64` vector `[l0, l1, l2, l3]`,
the internal representation of `Fq`. -/
def limbs4 (l0 l1 l2 l3 : Nat) : Nat := l0 + 2 ^ 64 * l1 + 2 ^ 128 * l2 + 2 ^ 192 * l3

namespace Fq

/-- Montgomery constant `R = 2^256 mod q` (the source constant `R`), which is
also the multiplicative identity in Montgomery form. -/
def R : Nat :=
  limbs4 0xd35d438dc58f0d9d 0x0a78eb28f5c70b3d 0x666ea36f7879462c 0x0e0a77c19a07df2f

/-- Montgomery constant `R² = 2^512 mod q` (the source constant `R2`). -/
def R2 : Nat :=
  limbs4 0xf32cfc5b538afa89 0xb5e71911d44501fb 0x47ab1eff0a417ff6 0x06d89f71cab8351f

/-- Montgomery constant `R³ = 2^768 mod q` (the source constant `R3`). -/
def R3 : Nat :=
  limbs4 0xb1cd6dafda1530df 0x62f210e6a7283db6 0xef7f0b0c0ada0afb 0x20fd6e902d592544

/-- The source constant `NEGATIVE_ONE`, the Montgomery form of `q − 1`. -/
def NEGATIVE_ONE : Nat :=
  limbs4 0x68c3488912edefaa 0x8d087f6872aabf4f 0x51e1a24709081231 0x2259d6b14729c0fa

/-- Modelled from the spec: inverse of `R` modulo `q`.  The specification
characterizes Montgomery multiplication of limb values `u`, `v` as producing
`u·v·R⁻¹ mod q`; this constant is that `R⁻¹`. -/
def Rinv : Nat := 0x2e67157159e5c639cf63e9cfb74492d9eb2022850278edf8ed84884a014afa37

/-- Modelled from the spec: Montgomery multiplication (§4.2).  The
`field_arithmetic!` macro body is not among the sources; the spec states that
on Montgomery-form inputs it "yields `(a·b)·R mod q`", i.e. on limb values
`u·v·R⁻¹ mod q`. -/
def montMul (u v : Nat) : Nat := u * v * Rinv % qFq

/-- Modelled from the spec: addition (§4.2) — limb-wise add with carry followed
by one conditional subtraction of the modulus; on in-range inputs this is
addition modulo `q`. -/
def montAdd (u v : Nat) : Nat := (u + v) % qFq

/-- Montgomery lift `Fq::from_raw`: multiplication of the raw limb value by
`R²` (spec §4.5); the macro body is not among the sources. -/
def from_raw (u : Nat) : Nat := montMul u R2

/-- The additive identity `Fq::ZERO = Fq([0, 0, 0, 0])`. -/
def ZERO : Nat := limbs4 0 0 0 0

/-- Modelled from the spec: the multiplicative identity is `R` in Montgomery
form (spec §3). -/
def ONE : Nat := R

/-- The source constant `MULTIPLICATIVE_GENERATOR = Fq::from_raw([0x03, 0, 0, 0])`. -/
def MULTIPLICATIVE_GENERATOR : Nat := from_raw (limbs4 0x03 0x0 0x0 0x0)

/-- The source constant `S` (2-adicity exponent), line 221 of `fq.rs`. -/
def S : Nat := 0

/-- The source constant `DELTA = Fq::from_raw([0x9, 0, 0, 0])`. -/
def DELTA : Nat := from_raw (limbs4 0x9 0 0 0)

/-- The source constant `ROOT_OF_UNITY`, built by `from_raw` on the limbs of
`0x30644e72e131a029b85045b68181585d97816a916871ca8d3c208c16d87cfd46`. -/
def ROOT_OF_UNITY : Nat :=
  from_raw (limbs4 0x3c208c16d87cfd46 0x97816a916871ca8d 0xb85045b68181585d 0x30644e72e131a029)

/-- The source constant `ROOT_OF_UNITY_INV`, built by `from_raw` on the same
limbs as `ROOT_OF_UNITY`. -/
def ROOT_OF_UNITY_INV : Nat :=
  from_raw (limbs4 0x3c208c16d87cfd46 0x97816a916871ca8d 0xb85045b68181585d 0x30644e72e131a029)

/-- The source constant `ZETA`. -/
def ZETA : Nat :=
  from_raw (limbs4 0xe4bd44e5607cfd48 0xc28f069fbb966e3d 0x5e6dd9e7e0acccb0 0x30644e72e131a029)

/-- Modelled from the spec: conversion out of Montgomery form — the
macro-generated `Into<[u64; 4]>` used by `to_repr` performs one Montgomery
reduction pass (spec §4.5), giving the canonical integer `m·R⁻¹ mod q`. -/
def toCanonical (m : Nat) : Nat := m * Rinv % qFq

/-- Modelled from the spec: the constant-time square-and-multiply ladder of
§4.3 (`pow` is macro-generated).  `powAux b e n acc` still has bits
`n−1 … 0` of the exponent to process, most significant first; every step
squares and conditionally multiplies by the base. -/
def powAux (b e : Nat) : Nat → Nat → Nat
  | 0, acc => acc
  | n+1, acc =>
      powAux b e n (if e / 2 ^ n % 2 = 1 then montMul (montMul acc acc) b else montMul acc acc)

/-- Exponentiation over the full 256-bit width of a four-limb exponent,
starting from the Montgomery one.  Modelled from the spec (§4.3). -/
def pow (b e : Nat) : Nat := powAux b e 256 R

/-- Square root (source `fq.rs` lines 188–197): raise to the fixed four-limb
exponent and accept the candidate exactly when its square reproduces the
input. -/
def sqrt (m : Nat) : Option Nat :=
  if montMul (pow m (limbs4 0x4f082305b61f3f52 0x65e05aa45a1c72a3 0x6e14116da0605617 0x0c19139cb84c680a))
      (pow m (limbs4 0x4f082305b61f3f52 0x65e05aa45a1c72a3 0x6e14116da0605617 0x0c19139cb84c680a)) = m
  then some (pow m (limbs4 0x4f082305b61f3f52 0x65e05aa45a1c72a3 0x6e14116da0605617 0x0c19139cb84c680a))
  else none

/-- Modelled from the spec: `invert` (§4.3) is macro-generated — raise to
`q − 2` by the fixed-width ladder, and report absence exactly when the input
is the additive identity. -/
def invert (m : Nat) : Option Nat :=
  if m = 0 then none else some (pow m (qFq - 2))

/-- Modelled from the spec: the Legendre-style residue test (§4.4), whose
`extend_field_legendre!` body is not among the sources — exponentiate by
`(q−1)/2`; the "non-residue" outcome is the one where the result is the
negation of the multiplicative identity. -/
def ct_quadratic_non_residue (m : Nat) : Bool :=
  decide (pow m ((qFq - 1) / 2) = NEGATIVE_ONE)

/-- Modelled from the spec: `arithmetic::sbb` (not among the sources) — the
borrow-propagating 64-bit subtract of §4.1: a 128-bit wrapping subtract of
`b` plus the incoming borrow's top bit, returning the low word and the high
(borrow) word. -/
def sbb (a b borrow : Nat) : Nat × Nat :=
  ((2 ^ 128 + a - (b + borrow / 2 ^ 63)) % 2 ^ 128 % 2 ^ 64,
   (2 ^ 128 + a - (b + borrow / 2 ^ 63)) % 2 ^ 128 / 2 ^ 64)

/-- Borrow chain of `from_repr` (source lines 231–240): subtract the modulus
limbs from the parsed limbs, propagating the borrow word. -/
def borrowChain (t0 t1 t2 t3 : Nat) : Nat :=
  (sbb t3 0x30644e72e131a029
    ((sbb t2 0xb85045b68181585d
      ((sbb t1 0x97816a916871ca8d
        ((sbb t0 0x3c208c16d87cfd47 0).2)).2)).2)).2

/-- Decoder `from_repr` (source lines 223–247): parse four little-endian `u64`
limbs from 32 bytes, run the borrow-chain comparison against the modulus
(`is_some = borrow & 1`), and lift the parsed value into Montgomery form by
multiplying with `R²`. -/
def from_repr (bytes : List Nat) : Option Nat :=
  if borrowChain (leNat ((bytes.drop 0).take 8)) (leNat ((bytes.drop 8).take 8))
      (leNat ((bytes.drop 16).take 8)) (leNat ((bytes.drop 24).take 8)) % 256 % 2 = 1 then
    some (montMul (limbs4 (leNat ((bytes.drop 0).take 8)) (leNat ((bytes.drop 8).take 8))
      (leNat ((bytes.drop 16).take 8)) (leNat ((bytes.drop 24).take 8))) R2)
  else none

/-- Encoder `to_repr` (source lines 249–258): Montgomery-reduce to the
canonical integer and serialize it as 32 little-endian bytes. -/
def to_repr (m : Nat) : List Nat := leBytes 32 (toCanonical m)

/-- Modelled from the spec: `from_u512` (§4.6), macro-generated — split the
512-bit integer into 256-bit halves `d0`, `d1` and return `d0·R² + d1·R³`
computed with Montgomery multiplication and field addition. -/
def from_u512 (l0 l1 l2 l3 l4 l5 l6 l7 : Nat) : Nat :=
  montAdd (montMul (limbs4 l0 l1 l2 l3) R2) (montMul (limbs4 l4 l5 l6 l7) R3)

/-- Wide reduction `from_uniform_bytes` (source lines 265–280): parse eight
little-endian `u64` limbs from the 64-byte buffer and reduce with `from_u512`. -/
def from_uniform_bytes (bytes : List Nat) : Nat :=
  from_u512 (leNat ((bytes.drop 0).take 8)) (leNat ((bytes.drop 8).take 8))
    (leNat ((bytes.drop 16).take 8)) (leNat ((bytes.drop 24).take 8))
    (leNat ((bytes.drop 32).take 8)) (leNat ((bytes.drop 40).take 8))
    (leNat ((bytes.drop 48).take 8)) (leNat ((bytes.drop 56).take 8))

/-- Modelled from the spec: the raw codec's acceptance predicate (§4.5), the
same less-than-modulus test as the canonical codec. -/
def is_less_than_modulus (v : Nat) : Bool := decide (v < qFq)

/-- Modelled from the spec: raw encoding (§4.5; `serde.rs` is not among the
sources) — the 32-byte little-endian serialization of the limbs with no
Montgomery conversion. -/
def to_raw_bytes (m : Nat) : List Nat := leBytes 32 m

/-- Modelled from the spec: raw decoding (§4.5) — parse the limbs and accept
them unchanged exactly when they satisfy the less-than-modulus predicate. -/
def from_raw_bytes (bytes : List Nat) : Option Nat :=
  if is_less_than_modulus (leNat bytes) then some (leNat bytes) else none

/-- Residue represented by a Montgomery limb value: `m·R⁻¹` in `ZMod q`
(spec §3: limb value `v` represents the residue `v·R⁻¹ mod q`). -/
def res (m : Nat) : ZMod qFq := (m : ZMod qFq) * (Rinv : ZMod qFq)

end Fq

theorem powModF_eq : ∀ (f a e n : Nat), e < 2 ^ f → powModF f a e n = a ^ e % n
  | 0, a, e, n, h => by
    have he : e = 0 := by simpa using Nat.lt_one_iff.mp (by simpa using h)
    subst he; simp [powModF]
  | f+1, a, e, n, h => by
    by_cases he : e = 0
    · subst he; simp [powModF]
    · have h2f : (2:Nat) ^ (f+1) = 2 * 2 ^ f := by rw [Nat.pow_succ]; ring
      have h2 : e / 2 < 2 ^ f := by omega
      have ih := powModF_eq f a (e / 2) n h2
      simp only [powModF, if_neg he, ih]
      rcases Nat.mod_two_eq_zero_or_one e with hm | hm
      · rw [if_neg (by omega)]
        rw [← Nat.mul_mod, ← pow_add]
        have : e / 2 + e / 2 = e := by omega
        rw [this]
      · rw [if_pos hm]
        rw [← Nat.mul_mod, Nat.mod_mul_mod, ← pow_add, ← pow_succ]
        have : e / 2 + e / 2 + 1 = e := by omega
        rw [this]

theorem zmod_pow_eq_one_of_powModF (p a e f : Nat) (hp : 1 < p) (he : e < 2 ^ f)
    (h : powModF f a e p = 1) : ((a : ZMod p)) ^ e = 1 := by
  rw [powModF_eq f a e p he] at h
  have : ((a ^ e : Nat) : ZMod p) = ((1 : Nat) : ZMod p) := by
    rw [ZMod.natCast_eq_natCast_iff']
    rw [h, Nat.mod_eq_of_lt hp]
  simpa using this

theorem zmod_pow_ne_one_of_powModF (p a e f : Nat) (hp : 1 < p) (he : e < 2 ^ f)
    (h : powModF f a e p ≠ 1) : ((a : ZMod p)) ^ e ≠ 1 := by
  intro hc
  apply h
  rw [powModF_eq f a e p he]
  have : ((a ^ e : Nat) : ZMod p) = ((1 : Nat) : ZMod p) := by push_cast; simpa using hc
  rw [ZMod.natCast_eq_natCast_iff'] at this
  simpa [Nat.mod_eq_of_lt hp] using this

/-- Helper for enumerating the prime divisors of a concrete factored number. -/
theorem prime_dvd_mul_cases {r c m : Nat} (hr : r.Prime) (hc : c.Prime) (h : r ∣ c * m) :
    r = c ∨ r ∣ m := by
  rcases (Nat.Prime.dvd_mul hr).mp h with h' | h'
  · exact Or.inl ((Nat.prime_dvd_prime_iff_eq hr hc).mp h')
  · exact Or.inr h'

theorem prime_405928799 : Nat.Prime 405928799 := by
  apply lucas_primality 405928799 ((22 : Nat) : ZMod 405928799)
  · exact zmod_pow_eq_one_of_powModF _ _ _ 64 (by norm_num) (by norm_num) (by decide)
  · intro r hr hdvd
    have h2 : Nat.Prime 2 := by norm_num
    have h11 : Nat.Prime 11 := by norm_num
    have h3691 : Nat.Prime 3691 := by norm_num
    have h4999 : Nat.Prime 4999 := by norm_num
    have hfact : 405928799 - 1 = 2 * (11 * (3691 * 4999)) := by norm_num
    rw [hfact] at hdvd
    rcases prime_dvd_mul_cases hr h2 hdvd with rfl | hdvd
    · exact zmod_pow_ne_one_of_powModF _ _ _ 64 (by norm_num) (by norm_num) (by decide)
    rcases prime_dvd_mul_cases hr h11 hdvd with rfl | hdvd
    · exact zmod_pow_ne_one_of_powModF _ _ _ 64 (by norm_num) (by norm_num) (by decide)
    rcases prime_dvd_mul_cases hr h3691 hdvd with rfl | hdvd
    · exact zmod_pow_ne_one_of_powModF _ _ _ 64 (by norm_num) (by norm_num) (by decide)
    have : r = 4999 := (Nat.prime_dvd_prime_iff_eq hr h4999).mp hdvd
    subst this
    exact zmod_pow_ne_one_of_powModF _ _ _ 64 (by norm_num) (by norm_num) (by decide)
theorem prime_11465965001 : Nat.Prime 11465965001 := by
  apply lucas_primality 11465965001 ((3 : Nat) : ZMod 11465965001)
  · exact zmod_pow_eq_one_of_powModF _ _ _ 256 (by norm_num) (by decide) (by decide)
  · intro r hr hdvd
    have hp2 : Nat.Prime 2 := by norm_num
    have hp5 : Nat.Prime 5 := by norm_num
    have hp7 : Nat.Prime 7 := by norm_num
    have hp327599 : Nat.Prime 327599 := by norm_num
    have hfact : 11465965001 - 1 = 2 * (2 * (2 * (5 * (5 * (5 * (5 * (7 * (327599)))))))) := by decide
    rw [hfact] at hdvd
    rcases prime_dvd_mul_cases hr hp2 hdvd with rfl | hdvd
    · exact zmod_pow_ne_one_of_powModF _ _ _ 256 (by norm_num) (by decide) (by decide)
    rcases prime_dvd_mul_cases hr hp2 hdvd with rfl | hdvd
    · exact zmod_pow_ne_one_of_powModF _ _ _ 256 (by norm_num) (by decide) (by decide)
    rcases prime_dvd_mul_cases hr hp2 hdvd with rfl | hdvd
    · exact zmod_pow_ne_one_of_powModF _ _ _ 256 (by norm_num) (by decide) (by decide)
    rcases prime_dvd_mul_cases hr hp5 hdvd with rfl | hdvd
    · exact zmod_pow_ne_one_of_powModF _ _ _ 256 (by norm_num) (by decide) (by decide)
    rcases prime_dvd_mul_cases hr hp5 hdvd with rfl | hdvd
    · exact zmod_pow_ne_one_of_powModF _ _ _ 256 (by norm_num) (by decide) (by decide)
    rcases prime_dvd_mul_cases hr hp5 hdvd with rfl | hdvd
    · exact zmod_pow_ne_one_of_powModF _ _ _ 256 (by norm_num) (by decide) (by decide)
    rcases prime_dvd_mul_cases hr hp5 hdvd with rfl | hdvd
    · exact zmod_pow_ne_one_of_powModF _ _ _ 256 (by norm_num) (by decide) (by decide)
    rcases prime_dvd_mul_cases hr hp7 hdvd with rfl | hdvd
    · exact zmod_pow_ne_one_of_powModF _ _ _ 256 (by norm_num) (by decide) (by decide)
    have hlast : r = 327599 := (Nat.prime_dvd_prime_iff_eq hr hp327599).mp hdvd
    subst hlast
    exact zmod_pow_ne_one_of_powModF _ _ _ 256 (by norm_num) (by decide) (by decide)

theorem prime_1853641 : Nat.Prime 1853641 := by
  apply lucas_primality 1853641 ((17 : Nat) : ZMod 1853641)
  · exact zmod_pow_eq_one_of_powModF _ _ _ 256 (by norm_num) (by decide) (by decide)
  · intro r hr hdvd
    have hp2 : Nat.Prime 2 := by norm_num
    have hp3 : Nat.Prime 3 := by norm_num
    have hp5 : Nat.Prime 5 := by norm_num
    have hp19 : Nat.Prime 19 := by norm_num
    have hp271 : Nat.Prime 271 := by norm_num
    have hfact : 1853641 - 1 = 2 * (2 * (2 * (3 * (3 * (5 * (19 * (271))))))) := by decide
    rw [hfact] at hdvd
    rcases prime_dvd_mul_cases hr hp2 hdvd with rfl | hdvd
    · exact zmod_pow_ne_one_of_powModF _ _ _ 256 (by norm_num) (by decide) (by decide)
    rcases prime_dvd_mul_cases hr hp2 hdvd with rfl | hdvd
    · exact zmod_pow_ne_one_of_powModF _ _ _ 256 (by norm_num) (by decide) (by decide)
    rcases prime_dvd_mul_cases hr hp2 hdvd with rfl | hdvd
    · exact zmod_pow_ne_one_of_powModF _ _ _ 256 (by norm_num) (by decide) (by decide)
    rcases prime_dvd_mul_cases hr hp3 hdvd with rfl | hdvd
    · exact zmod_pow_ne_one_of_powModF _ _ _ 256 (by norm_num) (by decide) (by decide)
    rcases prime_dvd_mul_cases hr hp3 hdvd with rfl | hdvd
    · exact zmod_pow_ne_one_of_powModF _ _ _ 256 (by norm_num) (by decide) (by decide)
    rcases prime_dvd_mul_cases hr hp5 hdvd with rfl | hdvd
    · exact zmod_pow_ne_one_of_powModF _ _ _ 256 (by norm_num) (by decide) (by decide)
    rcases prime_dvd_mul_cases hr hp19 hdvd with rfl | hdvd
    · exact zmod_pow_ne_one_of_powModF _ _ _ 256 (by norm_num) (by decide) (by decide)
    have hlast : r = 271 := (Nat.prime_dvd_prime_iff_eq hr hp271).mp hdvd
    subst hlast
    exact zmod_pow_ne_one_of_powModF _ _ _ 256 (by norm_num) (by decide) (by decide)

theorem prime_4562087 : Nat.Prime 4562087 := by
  apply lucas_primality 4562087 ((5 : Nat) : ZMod 4562087)
  · exact zmod_pow_eq_one_of_powModF _ _ _ 256 (by norm_num) (by decide) (by decide)
  · intro r hr hdvd
    have hp2 : Nat.Prime 2 := by norm_num
    have hp17 : Nat.Prime 17 := by norm_num
    have hp109 : Nat.Prime 109 := by norm_num
    have hp1231 : Nat.Prime 1231 := by norm_num
    have hfact : 4562087 - 1 = 2 * (17 * (109 * (1231))) := by decide
    rw [hfact] at hdvd
    rcases prime_dvd_mul_cases hr hp2 hdvd with rfl | hdvd
    · exact zmod_pow_ne_one_of_powModF _ _ _ 256 (by norm_num) (by decide) (by decide)
    rcases prime_dvd_mul_cases hr hp17 hdvd with rfl | hdvd
    · exact zmod_pow_ne_one_of_powModF _ _ _ 256 (by norm_num) (by decide) (by decide)
    rcases prime_dvd_mul_cases hr hp109 hdvd with rfl | hdvd
    · exact zmod_pow_ne_one_of_powModF _ _ _ 256 (by norm_num) (by decide) (by decide)
    have hlast : r = 1231 := (Nat.prime_dvd_prime_iff_eq hr hp1231).mp hdvd
    subst hlast
    exact zmod_pow_ne_one_of_powModF _ _ _ 256 (by norm_num) (by decide) (by decide)

theorem prime_173171039 : Nat.Prime 173171039 := by
  apply lucas_primality 173171039 ((13 : Nat) : ZMod 173171039)
  · exact zmod_pow_eq_one_of_powModF _ _ _ 256 (by norm_num) (by decide) (by decide)
  · intro r hr hdvd
    have hp2 : Nat.Prime 2 := by norm_num
    have hp73 : Nat.Prime 73 := by norm_num
    have hp89 : Nat.Prime 89 := by norm_num
    have hp13327 : Nat.Prime 13327 := by norm_num
    have hfact : 173171039 - 1 = 2 * (73 * (89 * (13327))) := by decide
    rw [hfact] at hdvd
    rcases prime_dvd_mul_cases hr hp2 hdvd with rfl | hdvd
    · exact zmod_pow_ne_one_of_powModF _ _ _ 256 (by norm_num) (by decide) (by decide)
    rcases prime_dvd_mul_cases hr hp73 hdvd with rfl | hdvd
    · exact zmod_pow_ne_one_of_powModF _ _ _ 256 (by norm_num) (by decide) (by decide)
    rcases prime_dvd_mul_cases hr hp89 hdvd with rfl | hdvd
    · exact zmod_pow_ne_one_of_powModF _ _ _ 256 (by norm_num) (by decide) (by decide)
    have hlast : r = 13327 := (Nat.prime_dvd_prime_iff_eq hr hp13327).mp hdvd
    subst hlast
    exact zmod_pow_ne_one_of_powModF _ _ _ 256 (by norm_num) (by decide) (by decide)

theorem prime_1263766531 : Nat.Prime 1263766531 := by
  apply lucas_primality 1263766531 ((10 : Nat) : ZMod 1263766531)
  · exact zmod_pow_eq_one_of_powModF _ _ _ 256 (by norm_num) (by decide) (by decide)
  · intro r hr hdvd
    have hp2 : Nat.Prime 2 := by norm_num
    have hp3 : Nat.Prime 3 := by norm_num
    have hp5 : Nat.Prime 5 := by norm_num
    have hp13 : Nat.Prime 13 := by norm_num
    have hp911 : Nat.Prime 911 := by norm_num
    have hp3557 : Nat.Prime 3557 := by norm_num
    have hfact : 1263766531 - 1 = 2 * (3 * (5 * (13 * (911 * (3557))))) := by decide
    rw [hfact] at hdvd
    rcases prime_dvd_mul_cases hr hp2 hdvd with rfl | hdvd
    · exact zmod_pow_ne_one_of_powModF _ _ _ 256 (by norm_num) (by decide) (by decide)
    rcases prime_dvd_mul_cases hr hp3 hdvd with rfl | hdvd
    · exact zmod_pow_ne_one_of_powModF _ _ _ 256 (by norm_num) (by decide) (by decide)
    rcases prime_dvd_mul_cases hr hp5 hdvd with rfl | hdvd
    · exact zmod_pow_ne_one_of_powModF _ _ _ 256 (by norm_num) (by decide) (by decide)
    rcases prime_dvd_mul_cases hr hp13 hdvd with rfl | hdvd
    · exact zmod_pow_ne_one_of_powModF _ _ _ 256 (by norm_num) (by decide) (by decide)
    rcases prime_dvd_mul_cases hr hp911 hdvd with rfl | hdvd
    · exact zmod_pow_ne_one_of_powModF _ _ _ 256 (by norm_num) (by decide) (by decide)
    have hlast : r = 3557 := (Nat.prime_dvd_prime_iff_eq hr hp3557).mp hdvd
    subst hlast
    exact zmod_pow_ne_one_of_powModF _ _ _ 256 (by norm_num) (by decide) (by decide)

theorem prime_35385462869 : Nat.Prime 35385462869 := by
  apply lucas_primality 35385462869 ((2 : Nat) : ZMod 35385462869)
  · exact zmod_pow_eq_one_of_powModF _ _ _ 256 (by norm_num) (by decide) (by decide)
  · intro r hr hdvd
    have hp2 : Nat.Prime 2 := by norm_num
    have hp7 : Nat.Prime 7 := by norm_num
    have hp1263766531 : Nat.Prime 1263766531 := prime_1263766531
    have hfact : 35385462869 - 1 = 2 * (2 * (7 * (1263766531))) := by decide
    rw [hfact] at hdvd
    rcases prime_dvd_mul_cases hr hp2 hdvd with rfl | hdvd
    · exact zmod_pow_ne_one_of_powModF _ _ _ 256 (by norm_num) (by decide) (by decide)
    rcases prime_dvd_mul_cases hr hp2 hdvd with rfl | hdvd
    · exact zmod_pow_ne_one_of_powModF _ _ _ 256 (by norm_num) (by decide) (by decide)
    rcases prime_dvd_mul_cases hr hp7 hdvd with rfl | hdvd
    · exact zmod_pow_ne_one_of_powModF _ _ _ 256 (by norm_num) (by decide) (by decide)
    have hlast : r = 1263766531 := (Nat.prime_dvd_prime_iff_eq hr hp1263766531).mp hdvd
    subst hlast
    exact zmod_pow_ne_one_of_powModF _ _ _ 256 (by norm_num) (by decide) (by decide)

theorem prime_2480874801745591 : Nat.Prime 2480874801745591 := by
  apply lucas_primality 2480874801745591 ((6 : Nat) : ZMod 2480874801745591)
  · exact zmod_pow_eq_one_of_powModF _ _ _ 256 (by norm_num) (by decide) (by decide)
  · intro r hr hdvd
    have hp2 : Nat.Prime 2 := by norm_num
    have hp3 : Nat.Prime 3 := by norm_num
    have hp5 : Nat.Prime 5 := by norm_num
    have hp19 : Nat.Prime 19 := by norm_num
    have hp41 : Nat.Prime 41 := by norm_num
    have hp35385462869 : Nat.Prime 35385462869 := prime_35385462869
    have hfact : 2480874801745591 - 1 = 2 * (3 * (3 * (5 * (19 * (41 * (35385462869)))))) := by decide
    rw [hfact] at hdvd
    rcases prime_dvd_mul_cases hr hp2 hdvd with rfl | hdvd
    · exact zmod_pow_ne_one_of_powModF _ _ _ 256 (by norm_num) (by decide) (by decide)
    rcases prime_dvd_mul_cases hr hp3 hdvd with rfl | hdvd
    · exact zmod_pow_ne_one_of_powModF _ _ _ 256 (by norm_num) (by decide) (by decide)
    rcases prime_dvd_mul_cases hr hp3 hdvd with rfl | hdvd
    · exact zmod_pow_ne_one_of_powModF _ _ _ 256 (by norm_num) (by decide) (by decide)
    rcases prime_dvd_mul_cases hr hp5 hdvd with rfl | hdvd
    · exact zmod_pow_ne_one_of_powModF _ _ _ 256 (by norm_num) (by decide) (by decide)
    rcases prime_dvd_mul_cases hr hp19 hdvd with rfl | hdvd
    · exact zmod_pow_ne_one_of_powModF _ _ _ 256 (by norm_num) (by decide) (by decide)
    rcases prime_dvd_mul_cases hr hp41 hdvd with rfl | hdvd
    · exact zmod_pow_ne_one_of_powModF _ _ _ 256 (by norm_num) (by decide) (by decide)
    have hlast : r = 35385462869 := (Nat.prime_dvd_prime_iff_eq hr hp35385462869).mp hdvd
    subst hlast
    exact zmod_pow_ne_one_of_powModF _ _ _ 256 (by norm_num) (by decide) (by decide)

theorem prime_bigP : Nat.Prime 13427688667394608761327070753331941386769 := by
  apply lucas_primality 13427688667394608761327070753331941386769 ((17 : Nat) : ZMod 13427688667394608761327070753331941386769)
  · exact zmod_pow_eq_one_of_powModF _ _ _ 256 (by norm_num) (by decide) (by decide)
  · intro r hr hdvd
    have hp2 : Nat.Prime 2 := by norm_num
    have hp3 : Nat.Prime 3 := by norm_num
    have hp7 : Nat.Prime 7 := by norm_num
    have hp11 : Nat.Prime 11 := by norm_num
    have hp1853641 : Nat.Prime 1853641 := prime_1853641
    have hp4562087 : Nat.Prime 4562087 := prime_4562087
    have hp173171039 : Nat.Prime 173171039 := prime_173171039
    have hp2480874801745591 : Nat.Prime 2480874801745591 := prime_2480874801745591
    have hfact : 13427688667394608761327070753331941386769 - 1 = 2 * (2 * (2 * (2 * (3 * (7 * (11 * (1853641 * (4562087 * (173171039 * (2480874801745591)))))))))) := by decide
    rw [hfact] at hdvd
    rcases prime_dvd_mul_cases hr hp2 hdvd with rfl | hdvd
    · exact zmod_pow_ne_one_of_powModF _ _ _ 256 (by norm_num) (by decide) (by decide)
    rcases prime_dvd_mul_cases hr hp2 hdvd with rfl | hdvd
    · exact zmod_pow_ne_one_of_powModF _ _ _ 256 (by norm_num) (by decide) (by decide)
    rcases prime_dvd_mul_cases hr hp2 hdvd with rfl | hdvd
    · exact zmod_pow_ne_one_of_powModF _ _ _ 256 (by norm_num) (by decide) (by decide)
    rcases prime_dvd_mul_cases hr hp2 hdvd with rfl | hdvd
    · exact zmod_pow_ne_one_of_powModF _ _ _ 256 (by norm_num) (by decide) (by decide)
    rcases prime_dvd_mul_cases hr hp3 hdvd with rfl | hdvd
    · exact zmod_pow_ne_one_of_powModF _ _ _ 256 (by norm_num) (by decide) (by decide)
    rcases prime_dvd_mul_cases hr hp7 hdvd with rfl | hdvd
    · exact zmod_pow_ne_one_of_powModF _ _ _ 256 (by norm_num) (by decide) (by decide)
    rcases prime_dvd_mul_cases hr hp11 hdvd with rfl | hdvd
    · exact zmod_pow_ne_one_of_powModF _ _ _ 256 (by norm_num) (by decide) (by decide)
    rcases prime_dvd_mul_cases hr hp1853641 hdvd with rfl | hdvd
    · exact zmod_pow_ne_one_of_powModF _ _ _ 256 (by norm_num) (by decide) (by decide)
    rcases prime_dvd_mul_cases hr hp4562087 hdvd with rfl | hdvd
    · exact zmod_pow_ne_one_of_powModF _ _ _ 256 (by norm_num) (by decide) (by decide)
    rcases prime_dvd_mul_cases hr hp173171039 hdvd with rfl | hdvd
    · exact zmod_pow_ne_one_of_powModF _ _ _ 256 (by norm_num) (by decide) (by decide)
    have hlast : r = 2480874801745591 := (Nat.prime_dvd_prime_iff_eq hr hp2480874801745591).mp hdvd
    subst hlast
    exact zmod_pow_ne_one_of_powModF _ _ _ 256 (by norm_num) (by decide) (by decide)

theorem qFq_prime : Nat.Prime 21888242871839275222246405745257275088696311157297823662689037894645226208583 := by
  apply lucas_primality 21888242871839275222246405745257275088696311157297823662689037894645226208583 ((3 : Nat) : ZMod 21888242871839275222246405745257275088696311157297823662689037894645226208583)
  · exact zmod_pow_eq_one_of_powModF _ _ _ 256 (by norm_num) (by decide) (by decide)
  · intro r hr hdvd
    have hp2 : Nat.Prime 2 := by norm_num
    have hp3 : Nat.Prime 3 := by norm_num
    have hp13 : Nat.Prime 13 := by norm_num
    have hp29 : Nat.Prime 29 := by norm_num
    have hp67 : Nat.Prime 67 := by norm_num
    have hp229 : Nat.Prime 229 := by norm_num
    have hp311 : Nat.Prime 311 := by norm_num
    have hp983 : Nat.Prime 983 := by norm_num
    have hp11003 : Nat.Prime 11003 := by norm_num
    have hp405928799 : Nat.Prime 405928799 := prime_405928799
    have hp11465965001 : Nat.Prime 11465965001 := prime_11465965001
    have hp13427688667394608761327070753331941386769 : Nat.Prime 13427688667394608761327070753331941386769 := prime_bigP
    have hfact : 21888242871839275222246405745257275088696311157297823662689037894645226208583 - 1 = 2 * (3 * (3 * (13 * (29 * (67 * (229 * (311 * (983 * (11003 * (405928799 * (11465965001 * (13427688667394608761327070753331941386769)))))))))))) := by decide
    rw [hfact] at hdvd
    rcases prime_dvd_mul_cases hr hp2 hdvd with rfl | hdvd
    · exact zmod_pow_ne_one_of_powModF _ _ _ 256 (by norm_num) (by decide) (by decide)
    rcases prime_dvd_mul_cases hr hp3 hdvd with rfl | hdvd
    · exact zmod_pow_ne_one_of_powModF _ _ _ 256 (by norm_num) (by decide) (by decide)
    rcases prime_dvd_mul_cases hr hp3 hdvd with rfl | hdvd
    · exact zmod_pow_ne_one_of_powModF _ _ _ 256 (by norm_num) (by decide) (by decide)
    rcases prime_dvd_mul_cases hr hp13 hdvd with rfl | hdvd
    · exact zmod_pow_ne_one_of_powModF _ _ _ 256 (by norm_num) (by decide) (by decide)
    rcases prime_dvd_mul_cases hr hp29 hdvd with rfl | hdvd
    · exact zmod_pow_ne_one_of_powModF _ _ _ 256 (by norm_num) (by decide) (by decide)
    rcases prime_dvd_mul_cases hr hp67 hdvd with rfl | hdvd
    · exact zmod_pow_ne_one_of_powModF _ _ _ 256 (by norm_num) (by decide) (by decide)
    rcases prime_dvd_mul_cases hr hp229 hdvd with rfl | hdvd
    · exact zmod_pow_ne_one_of_powModF _ _ _ 256 (by norm_num) (by decide) (by decide)
    rcases prime_dvd_mul_cases hr hp311 hdvd with rfl | hdvd
    · exact zmod_pow_ne_one_of_powModF _ _ _ 256 (by norm_num) (by decide) (by decide)
    rcases prime_dvd_mul_cases hr hp983 hdvd with rfl | hdvd
    · exact zmod_pow_ne_one_of_powModF _ _ _ 256 (by norm_num) (by decide) (by decide)
    rcases prime_dvd_mul_cases hr hp11003 hdvd with rfl | hdvd
    · exact zmod_pow_ne_one_of_powModF _ _ _ 256 (by norm_num) (by decide) (by decide)
    rcases prime_dvd_mul_cases hr hp405928799 hdvd with rfl | hdvd
    · exact zmod_pow_ne_one_of_powModF _ _ _ 256 (by norm_num) (by decide) (by decide)
    rcases prime_dvd_mul_cases hr hp11465965001 hdvd with rfl | hdvd
    · exact zmod_pow_ne_one_of_powModF _ _ _ 256 (by norm_num) (by decide) (by decide)
    have hlast : r = 13427688667394608761327070753331941386769 := (Nat.prime_dvd_prime_iff_eq hr hp13427688667394608761327070753331941386769).mp hdvd
    subst hlast
    exact zmod_pow_ne_one_of_powModF _ _ _ 256 (by norm_num) (by decide) (by decide)

instance factPrimeQ : Fact (Nat.Prime qFq) := ⟨qFq_prime⟩


namespace Fq

theorem qFq_pos : 0 < qFq := by decide

theorem montMul_lt (u v : Nat) : montMul u v < qFq := Nat.mod_lt _ qFq_pos

theorem montAdd_lt (u v : Nat) : montAdd u v < qFq := Nat.mod_lt _ qFq_pos

theorem toCanonical_lt (m : Nat) : toCanonical m < qFq := Nat.mod_lt _ qFq_pos

theorem res_montMul (u v : Nat) : res (montMul u v) = res u * res v := by
  unfold res montMul
  rw [ZMod.natCast_mod]
  push_cast
  ring

theorem res_montAdd (u v : Nat) : res (montAdd u v) = res u + res v := by
  unfold res montAdd
  rw [ZMod.natCast_mod]
  push_cast
  ring

theorem res_R : res R = 1 := by
  unfold res
  have h1 : ((R * Rinv : Nat) : ZMod qFq) = ((1 : Nat) : ZMod qFq) := by
    rw [ZMod.natCast_eq_natCast_iff']
    decide
  push_cast at h1
  exact h1

theorem res_inj {m m' : Nat} (hm : m < qFq) (hm' : m' < qFq) (h : res m = res m') : m = m' := by
  have hR : ((Rinv : Nat) : ZMod qFq) * ((R : Nat) : ZMod qFq) = 1 := by
    have h1 : ((R * Rinv : Nat) : ZMod qFq) = ((1 : Nat) : ZMod qFq) := by
      rw [ZMod.natCast_eq_natCast_iff']
      decide
    push_cast at h1
    rw [mul_comm]
    exact h1
  have h2 : (m : ZMod qFq) = (m' : ZMod qFq) := by
    have h3 := congrArg (· * ((R : Nat) : ZMod qFq)) h
    simp only [res] at h3
    calc (m : ZMod qFq) = (m : ZMod qFq) * (((Rinv : Nat) : ZMod qFq) * ((R : Nat) : ZMod qFq)) := by
          rw [hR, mul_one]
      _ = (m' : ZMod qFq) * (((Rinv : Nat) : ZMod qFq) * ((R : Nat) : ZMod qFq)) := by
          rw [← mul_assoc, ← mul_assoc]; exact h3
      _ = (m' : ZMod qFq) := by rw [hR, mul_one]
  rw [ZMod.natCast_eq_natCast_iff'] at h2
  rwa [Nat.mod_eq_of_lt hm, Nat.mod_eq_of_lt hm'] at h2

theorem res_eq_cast_toCanonical (m : Nat) : res m = ((toCanonical m : Nat) : ZMod qFq) := by
  unfold res toCanonical
  rw [ZMod.natCast_mod]
  push_cast
  ring

theorem toCanonical_eq_iff {m v : Nat} (hv : v < qFq) :
    toCanonical m = v ↔ res m = (v : ZMod qFq) := by
  constructor
  · intro h
    rw [res_eq_cast_toCanonical, h]
  · intro h
    rw [res_eq_cast_toCanonical] at h
    have := ZMod.natCast_eq_natCast_iff' (toCanonical m) v qFq |>.mp h
    rwa [Nat.mod_eq_of_lt (toCanonical_lt m), Nat.mod_eq_of_lt hv] at this

theorem res_from_raw (v : Nat) : res (from_raw v) = (v : ZMod qFq) := by
  unfold from_raw
  rw [res_montMul]
  have h1 : ((R2 * Rinv * Rinv : Nat) : ZMod qFq) = ((1 : Nat) : ZMod qFq) := by
    rw [ZMod.natCast_eq_natCast_iff']
    decide
  push_cast at h1
  unfold res
  calc (v : ZMod qFq) * ((Rinv : Nat) : ZMod qFq) *
        (((R2 : Nat) : ZMod qFq) * ((Rinv : Nat) : ZMod qFq))
      = (v : ZMod qFq) * (((R2 : Nat) : ZMod qFq) * ((Rinv : Nat) : ZMod qFq) *
          ((Rinv : Nat) : ZMod qFq)) := by ring
    _ = (v : ZMod qFq) := by rw [h1, mul_one]

theorem res_montMul_R3 (v : Nat) :
    res (montMul v R3) = (v : ZMod qFq) * ((2 ^ 256 : Nat) : ZMod qFq) := by
  rw [res_montMul]
  have h1 : ((R3 * Rinv * Rinv : Nat) : ZMod qFq) = ((2 ^ 256 : Nat) : ZMod qFq) := by
    rw [ZMod.natCast_eq_natCast_iff']
    decide
  unfold res
  calc (v : ZMod qFq) * ((Rinv : Nat) : ZMod qFq) *
        (((R3 : Nat) : ZMod qFq) * ((Rinv : Nat) : ZMod qFq))
      = (v : ZMod qFq) * ((R3 * Rinv * Rinv : Nat) : ZMod qFq) := by push_cast; ring
    _ = (v : ZMod qFq) * ((2 ^ 256 : Nat) : ZMod qFq) := by rw [h1]

theorem res_zero : res 0 = 0 := by
  unfold res
  push_cast
  ring

theorem res_ne_zero {a : Nat} (ha : a < qFq) (h0 : a ≠ 0) : res a ≠ 0 := by
  intro h
  apply h0
  have : res a = res 0 := by rw [h, res_zero]
  exact res_inj ha qFq_pos this

end Fq

namespace Fq

theorem res_powAux (b e : Nat) :
    ∀ (n : Nat) (acc : Nat), res (powAux b e n acc) = res acc ^ 2 ^ n * res b ^ (e % 2 ^ n) := by
  intro n
  induction n with
  | zero =>
    intro acc
    simp [powAux, Nat.mod_one]
  | succ n ih =>
    intro acc
    rw [show powAux b e (n+1) acc
        = powAux b e n (if e / 2 ^ n % 2 = 1 then montMul (montMul acc acc) b
            else montMul acc acc) from rfl]
    rw [ih]
    have hsplit : e % 2 ^ (n+1) = e % 2 ^ n + 2 ^ n * (e / 2 ^ n % 2) := by
      rw [pow_succ]
      exact Nat.mod_mul
    have hpow : (2:Nat) ^ (n+1) = 2 ^ n + 2 ^ n := by
      rw [pow_succ]
      ring
    by_cases hb : e / 2 ^ n % 2 = 1
    · rw [if_pos hb, res_montMul, res_montMul, hsplit, hb, hpow]
      rw [mul_one, pow_add, pow_add, mul_pow, mul_pow]
      ring
    · have hb0 : e / 2 ^ n % 2 = 0 := by omega
      rw [if_neg hb, res_montMul, hsplit, hb0, hpow]
      rw [mul_zero, add_zero, pow_add, mul_pow]

theorem res_pow (b e : Nat) (he : e < 2 ^ 256) : res (pow b e) = res b ^ e := by
  unfold pow
  rw [res_powAux, res_R, one_pow, one_mul, Nat.mod_eq_of_lt he]

theorem powAux_lt (b e : Nat) : ∀ (n : Nat) (acc : Nat), powAux b e (n + 1) acc < qFq := by
  intro n
  induction n with
  | zero =>
    intro acc
    rw [show powAux b e 1 acc
        = (if e / 2 ^ 0 % 2 = 1 then montMul (montMul acc acc) b else montMul acc acc)
        from rfl]
    split
    · exact montMul_lt _ _
    · exact montMul_lt _ _
  | succ n ih =>
    intro acc
    rw [show powAux b e (n+2) acc
        = powAux b e (n+1) (if e / 2 ^ (n+1) % 2 = 1 then montMul (montMul acc acc) b
            else montMul acc acc) from rfl]
    exact ih _

theorem pow_lt (b e : Nat) : pow b e < qFq := powAux_lt b e 255 R

end Fq

theorem leNat_append (xs ys : List Nat) :
    leNat (xs ++ ys) = leNat xs + 256 ^ xs.length * leNat ys := by
  induction xs with
  | nil => simp [leNat]
  | cons x xs ih =>
    simp only [List.cons_append, leNat, List.length_cons, List.append_eq]
    rw [ih, pow_succ]
    ring

theorem leNat_take_drop (xs : List Nat) (h : 8 ≤ xs.length) :
    leNat xs = leNat (xs.take 8) + 2 ^ 64 * leNat (xs.drop 8) := by
  conv_lhs => rw [← List.take_append_drop 8 xs]
  rw [leNat_append, List.length_take]
  have hmin : min 8 xs.length = 8 := by omega
  rw [hmin]
  norm_num

theorem leNat_lt (xs : List Nat) (hb : ∀ x ∈ xs, x < 256) : leNat xs < 256 ^ xs.length := by
  induction xs with
  | nil => simp [leNat]
  | cons x xs ih =>
    have hx : x < 256 := hb x (List.mem_cons_self x xs)
    have ih' := ih (fun y hy => hb y (List.mem_cons_of_mem x hy))
    simp only [leNat, List.length_cons]
    rw [pow_succ]
    omega

theorem leNat_take8_lt (xs : List Nat) (hb : ∀ x ∈ xs, x < 256) : leNat (xs.take 8) < 2 ^ 64 := by
  have h1 := leNat_lt (xs.take 8) (fun x hx => hb x (List.mem_of_mem_take hx))
  have h2 : (xs.take 8).length ≤ 8 := by
    rw [List.length_take]
    omega
  have h3 : (256:Nat) ^ (xs.take 8).length ≤ 256 ^ 8 := Nat.pow_le_pow_right (by norm_num) h2
  have h4 : (256:Nat) ^ 8 = 2 ^ 64 := by norm_num
  omega

theorem leBytes_length (n : Nat) : ∀ v, (leBytes n v).length = n := by
  induction n with
  | zero => intro v; simp [leBytes]
  | succ n ih => intro v; simp [leBytes, ih]

theorem leBytes_bound (n : Nat) : ∀ v, ∀ x ∈ leBytes n v, x < 256 := by
  induction n with
  | zero => intro v x hx; simp [leBytes] at hx
  | succ n ih =>
    intro v x hx
    simp only [leBytes, List.mem_cons] at hx
    rcases hx with rfl | hx
    · exact Nat.mod_lt _ (by norm_num)
    · exact ih _ x hx

theorem leNat_leBytes (n : Nat) : ∀ v, v < 256 ^ n → leNat (leBytes n v) = v := by
  induction n with
  | zero =>
    intro v hv
    simp only [pow_zero, Nat.lt_one_iff] at hv
    simp [leBytes, leNat, hv]
  | succ n ih =>
    intro v hv
    have hdiv : v / 256 < 256 ^ n := by
      rw [pow_succ] at hv
      omega
    simp only [leBytes, leNat, ih _ hdiv]
    omega

theorem leNat_split4 (bytes : List Nat) (h : bytes.length = 32) :
    leNat bytes = limbs4 (leNat ((bytes.drop 0).take 8)) (leNat ((bytes.drop 8).take 8))
      (leNat ((bytes.drop 16).take 8)) (leNat ((bytes.drop 24).take 8)) := by
  have e16 : (bytes.drop 8).drop 8 = bytes.drop 16 := by rw [List.drop_drop]
  have e24 : (bytes.drop 16).drop 8 = bytes.drop 24 := by rw [List.drop_drop]
  have e32 : (bytes.drop 24).take 8 = bytes.drop 24 :=
    List.take_of_length_le (by rw [List.length_drop, h])
  rw [List.drop_zero, e32]
  rw [leNat_take_drop bytes (by omega)]
  rw [leNat_take_drop (bytes.drop 8) (by rw [List.length_drop, h]; norm_num)]
  rw [e16]
  rw [leNat_take_drop (bytes.drop 16) (by rw [List.length_drop, h]; norm_num)]
  rw [e24]
  unfold limbs4
  ring

theorem leNat_split8 (bytes : List Nat) (h : bytes.length = 64) :
    leNat bytes =
      limbs4 (leNat ((bytes.drop 0).take 8)) (leNat ((bytes.drop 8).take 8))
        (leNat ((bytes.drop 16).take 8)) (leNat ((bytes.drop 24).take 8))
      + 2 ^ 256 *
      limbs4 (leNat ((bytes.drop 32).take 8)) (leNat ((bytes.drop 40).take 8))
        (leNat ((bytes.drop 48).take 8)) (leNat ((bytes.drop 56).take 8)) := by
  have e16 : (bytes.drop 8).drop 8 = bytes.drop 16 := by rw [List.drop_drop]
  have e24 : (bytes.drop 16).drop 8 = bytes.drop 24 := by rw [List.drop_drop]
  have e32 : (bytes.drop 24).drop 8 = bytes.drop 32 := by rw [List.drop_drop]
  have e40 : (bytes.drop 32).drop 8 = bytes.drop 40 := by rw [List.drop_drop]
  have e48 : (bytes.drop 40).drop 8 = bytes.drop 48 := by rw [List.drop_drop]
  have e56 : (bytes.drop 48).drop 8 = bytes.drop 56 := by rw [List.drop_drop]
  have e64 : (bytes.drop 56).take 8 = bytes.drop 56 :=
    List.take_of_length_le (by rw [List.length_drop, h])
  rw [List.drop_zero, e64]
  rw [leNat_take_drop bytes (by omega)]
  rw [leNat_take_drop (bytes.drop 8) (by rw [List.length_drop, h]; norm_num)]
  rw [e16]
  rw [leNat_take_drop (bytes.drop 16) (by rw [List.length_drop, h]; norm_num)]
  rw [e24]
  rw [leNat_take_drop (bytes.drop 24) (by rw [List.length_drop, h]; norm_num)]
  rw [e32]
  rw [leNat_take_drop (bytes.drop 32) (by rw [List.length_drop, h]; norm_num)]
  rw [e40]
  rw [leNat_take_drop (bytes.drop 40) (by rw [List.length_drop, h]; norm_num)]
  rw [e48]
  rw [leNat_take_drop (bytes.drop 48) (by rw [List.length_drop, h]; norm_num)]
  rw [e56]
  unfold limbs4
  ring

theorem leNat_drop_take8_lt (bytes : List Nat) (hb : ∀ x ∈ bytes, x < 256) (k : Nat) :
    leNat ((bytes.drop k).take 8) < 2 ^ 64 :=
  leNat_take8_lt _ (fun x hx => hb x (List.mem_of_mem_drop hx))

namespace Fq

theorem sbb_snd (a b c : Nat) (ha : a < 2 ^ 64) (hb : b < 2 ^ 64)
    (hc : c = 0 ∨ c = 2 ^ 64 - 1) :
    (sbb a b c).2 = if a < b + c / 2 ^ 63 then 2 ^ 64 - 1 else 0 := by
  rcases hc with rfl | rfl <;>
    · simp only [sbb]
      split_ifs <;> omega

theorem borrowChain_iff (t0 t1 t2 t3 : Nat)
    (h0 : t0 < 2 ^ 64) (h1 : t1 < 2 ^ 64) (h2 : t2 < 2 ^ 64) (h3 : t3 < 2 ^ 64) :
    borrowChain t0 t1 t2 t3 % 256 % 2 = 1 ↔ limbs4 t0 t1 t2 t3 < qFq := by
  have e0 : (sbb t0 0x3c208c16d87cfd47 0).2
      = if t0 < 0x3c208c16d87cfd47 then 2 ^ 64 - 1 else 0 := by
    rw [sbb_snd t0 _ 0 h0 (by norm_num) (Or.inl rfl)]
    norm_num
  have e1 : (sbb t1 0x97816a916871ca8d (if t0 < 0x3c208c16d87cfd47 then 2 ^ 64 - 1 else 0)).2
      = if t0 + 2 ^ 64 * t1 < 0x3c208c16d87cfd47 + 2 ^ 64 * 0x97816a916871ca8d
        then 2 ^ 64 - 1 else 0 := by
    by_cases c : t0 < 0x3c208c16d87cfd47
    · rw [if_pos c, sbb_snd _ _ _ h1 (by norm_num) (Or.inr rfl)]
      split_ifs <;> omega
    · rw [if_neg c, sbb_snd _ _ _ h1 (by norm_num) (Or.inl rfl)]
      split_ifs <;> omega
  have e2 : (sbb t2 0xb85045b68181585d
        (if t0 + 2 ^ 64 * t1 < 0x3c208c16d87cfd47 + 2 ^ 64 * 0x97816a916871ca8d
          then 2 ^ 64 - 1 else 0)).2
      = if t0 + 2 ^ 64 * t1 + 2 ^ 128 * t2
          < 0x3c208c16d87cfd47 + 2 ^ 64 * 0x97816a916871ca8d + 2 ^ 128 * 0xb85045b68181585d
        then 2 ^ 64 - 1 else 0 := by
    by_cases c : t0 + 2 ^ 64 * t1 < 0x3c208c16d87cfd47 + 2 ^ 64 * 0x97816a916871ca8d
    · rw [if_pos c, sbb_snd _ _ _ h2 (by norm_num) (Or.inr rfl)]
      split_ifs <;> omega
    · rw [if_neg c, sbb_snd _ _ _ h2 (by norm_num) (Or.inl rfl)]
      split_ifs <;> omega
  have e3 : (sbb t3 0x30644e72e131a029
        (if t0 + 2 ^ 64 * t1 + 2 ^ 128 * t2
            < 0x3c208c16d87cfd47 + 2 ^ 64 * 0x97816a916871ca8d + 2 ^ 128 * 0xb85045b68181585d
          then 2 ^ 64 - 1 else 0)).2
      = if limbs4 t0 t1 t2 t3 < qFq then 2 ^ 64 - 1 else 0 := by
    simp only [limbs4, qFq]
    by_cases c : t0 + 2 ^ 64 * t1 + 2 ^ 128 * t2
        < 0x3c208c16d87cfd47 + 2 ^ 64 * 0x97816a916871ca8d + 2 ^ 128 * 0xb85045b68181585d
    · rw [if_pos c, sbb_snd _ _ _ h3 (by norm_num) (Or.inr rfl)]
      split_ifs <;> omega
    · rw [if_neg c, sbb_snd _ _ _ h3 (by norm_num) (Or.inl rfl)]
      split_ifs <;> omega
  simp only [borrowChain]
  rw [e0, e1, e2, e3]
  split_ifs with hq
  · have hone : ((2:Nat) ^ 64 - 1) % 256 % 2 = 1 := by norm_num
    rw [hone]
    exact iff_of_true rfl hq
  · exact iff_of_false (by norm_num) hq

end Fq

namespace Fq

theorem neg_one_ne_one_zmod : (-1 : ZMod qFq) ≠ 1 := by
  intro h
  have h1 : (1 : ZMod qFq) + 1 = 0 := by
    nth_rewrite 1 [← h]
    ring
  have h2 : ((2 : Nat) : ZMod qFq) = 0 := by
    push_cast
    calc (2 : ZMod qFq) = 1 + 1 := by norm_num
      _ = 0 := h1
  rw [ZMod.natCast_zmod_eq_zero_iff_dvd] at h2
  have h3 := Nat.le_of_dvd (by norm_num) h2
  exact absurd h3 (by decide)

theorem neg_one_ne_zero_zmod : (-1 : ZMod qFq) ≠ 0 :=
  neg_ne_zero.mpr one_ne_zero

theorem zmod_sqrt_iff (y : ZMod qFq) :
    (y ^ ((qFq + 1) / 4)) ^ 2 = y ↔ y ^ ((qFq - 1) / 2) ≠ -1 := by
  by_cases hy : y = 0
  · subst hy
    have hE : (qFq + 1) / 4 ≠ 0 := by decide
    have hL : (qFq - 1) / 2 ≠ 0 := by decide
    rw [zero_pow hE, zero_pow hL]
    apply iff_of_true
    · exact zero_pow (by norm_num)
    · exact fun h => neg_one_ne_zero_zmod h.symm
  · have hs2 : (y ^ ((qFq - 1) / 2)) * (y ^ ((qFq - 1) / 2)) = 1 := by
      rw [← pow_add]
      have hh : (qFq - 1) / 2 + (qFq - 1) / 2 = qFq - 1 := by decide
      rw [hh, ZMod.pow_card_sub_one_eq_one hy]
    rcases mul_self_eq_one_iff.mp hs2 with hs | hs
    · apply iff_of_true
      · have h2 : (y ^ ((qFq + 1) / 4)) ^ 2 = y ^ ((qFq - 1) / 2 + 1) := by
          rw [← pow_mul]
          congr 1
        rw [h2, pow_succ, hs, one_mul]
      · rw [hs]
        exact fun h => neg_one_ne_one_zmod h.symm
    · apply iff_of_false
      · intro hsq
        have ht : y ^ ((qFq + 1) / 4) ≠ 0 := by
          intro h0
          rw [h0] at hsq
          apply hy
          rw [← hsq]
          exact zero_pow (by norm_num)
        have hL1 : y ^ ((qFq - 1) / 2) = 1 := by
          rw [← hsq, ← pow_mul]
          have he : (qFq + 1) / 4 * (2 * ((qFq - 1) / 2)) = (qFq + 1) / 4 * 2 * ((qFq - 1) / 2) := by
            ring
          rw [show (2 : Nat) * ((qFq - 1) / 2) = qFq - 1 from by decide]
          exact ZMod.pow_card_sub_one_eq_one ht
        rw [hL1] at hs
        exact neg_one_ne_one_zmod hs.symm
      · intro hne
        exact hne hs

theorem zmod_sqrt_iff_square (y : ZMod qFq) :
    (y ^ ((qFq + 1) / 4)) ^ 2 = y ↔ (y = 0 ∨ ∃ z : ZMod qFq, z * z = y) := by
  by_cases hy : y = 0
  · subst hy
    have hE : (qFq + 1) / 4 ≠ 0 := by decide
    rw [zero_pow hE]
    apply iff_of_true
    · exact zero_pow (by norm_num)
    · exact Or.inl rfl
  · constructor
    · intro hsq
      exact Or.inr ⟨y ^ ((qFq + 1) / 4), by rw [← pow_two]; exact hsq⟩
    · rintro (rfl | ⟨z, hz⟩)
      · exact absurd rfl hy
      · have hz0 : z ≠ 0 := by
          rintro rfl
          apply hy
          rw [← hz, mul_zero]
        have hL1 : y ^ ((qFq - 1) / 2) = 1 := by
          rw [← hz, ← pow_two, ← pow_mul]
          rw [show (2 : Nat) * ((qFq - 1) / 2) = qFq - 1 from by decide]
          exact ZMod.pow_card_sub_one_eq_one hz0
        have h2 : (y ^ ((qFq + 1) / 4)) ^ 2 = y ^ ((qFq - 1) / 2 + 1) := by
          rw [← pow_mul]
          congr 1
        rw [h2, pow_succ, hL1, one_mul]

theorem res_NEGATIVE_ONE : res NEGATIVE_ONE = -1 := by
  have h1 : ((NEGATIVE_ONE * Rinv : Nat) : ZMod qFq) = ((qFq - 1 : Nat) : ZMod qFq) := by
    rw [ZMod.natCast_eq_natCast_iff']
    decide
  have h2 : ((qFq - 1 : Nat) : ZMod qFq) = -1 := by
    rw [Nat.cast_sub (by decide : 1 ≤ qFq)]
    rw [ZMod.natCast_self]
    push_cast
    ring
  unfold res
  calc ((NEGATIVE_ONE : Nat) : ZMod qFq) * ((Rinv : Nat) : ZMod qFq)
      = ((NEGATIVE_ONE * Rinv : Nat) : ZMod qFq) := by push_cast; ring
    _ = ((qFq - 1 : Nat) : ZMod qFq) := h1
    _ = -1 := h2

end Fq

namespace Fq

theorem sqrt_exp_eq :
    limbs4 0x4f082305b61f3f52 0x65e05aa45a1c72a3 0x6e14116da0605617 0x0c19139cb84c680a
      = (qFq + 1) / 4 := by decide

theorem sqrt_isSome_iff (a : Nat) :
    (sqrt a).isSome = true
      ↔ montMul (pow a ((qFq + 1) / 4)) (pow a ((qFq + 1) / 4)) = a := by
  unfold sqrt
  rw [sqrt_exp_eq]
  split_ifs with hc
  · exact iff_of_true rfl hc
  · exact iff_of_false (by simp) hc

theorem sqrt_accept_iff (a : Nat) (ha : a < qFq) :
    montMul (pow a ((qFq + 1) / 4)) (pow a ((qFq + 1) / 4)) = a
      ↔ (res a ^ ((qFq + 1) / 4)) ^ 2 = res a := by
  have hlt : (qFq + 1) / 4 < 2 ^ 256 := by decide
  constructor
  · intro h
    have h2 := congrArg res h
    rw [res_montMul, res_pow _ _ hlt] at h2
    rw [pow_two]
    exact h2
  · intro h
    apply res_inj (montMul_lt _ _) ha
    rw [res_montMul, res_pow _ _ hlt, ← pow_two]
    exact h

theorem non_residue_iff (a : Nat) :
    ct_quadratic_non_residue a = false ↔ ¬ res a ^ ((qFq - 1) / 2) = -1 := by
  have hlt : (qFq - 1) / 2 < 2 ^ 256 := by decide
  unfold ct_quadratic_non_residue
  rw [decide_eq_false_iff_not]
  constructor
  · intro h hcon
    apply h
    apply res_inj (pow_lt _ _) (by decide : NEGATIVE_ONE < qFq)
    rw [res_pow _ _ hlt, res_NEGATIVE_ONE]
    exact hcon
  · intro h hcon
    apply h
    rw [← res_NEGATIVE_ONE, ← hcon, res_pow _ _ hlt]

theorem exists_square_iff (a : Nat) (ha : a < qFq) :
    (a = 0 ∨ ∃ b, b < qFq ∧ montMul b b = a)
      ↔ (res a = 0 ∨ ∃ z : ZMod qFq, z * z = res a) := by
  constructor
  · rintro (rfl | ⟨b, _, hbb⟩)
    · exact Or.inl res_zero
    · refine Or.inr ⟨res b, ?_⟩
      rw [← res_montMul, hbb]
  · rintro (h0 | ⟨z, hz⟩)
    · left
      have h : res a = res 0 := by rw [h0, res_zero]
      exact res_inj ha qFq_pos h
    · right
      haveI : NeZero qFq := ⟨by decide⟩
      refine ⟨(z * ((R : Nat) : ZMod qFq)).val, ZMod.val_lt _, ?_⟩
      apply res_inj (montMul_lt _ _) ha
      rw [res_montMul]
      have hR1 : ((R : Nat) : ZMod qFq) * ((Rinv : Nat) : ZMod qFq) = 1 := res_R
      have hval : res ((z * ((R : Nat) : ZMod qFq)).val) = z := by
        unfold res
        rw [show ((((z * ((R : Nat) : ZMod qFq)).val : Nat)) : ZMod qFq)
            = z * ((R : Nat) : ZMod qFq) from ZMod.natCast_rightInverse _]
        calc z * ((R : Nat) : ZMod qFq) * ((Rinv : Nat) : ZMod qFq)
            = z * (((R : Nat) : ZMod qFq) * ((Rinv : Nat) : ZMod qFq)) := by ring
          _ = z := by rw [hR1, mul_one]
      rw [hval, hz]

/-- C1: for every valid field element `a`, `sqrt a` is present iff `a` is zero
or a quadratic residue — equivalently, iff the residue test on `a` is not
"non-residue" — and whenever present, the root squares back to `a`; the
candidate is the fixed-exponent power and is accepted exactly when its square
reproduces the input. -/
theorem sqrt_residue_coherence (a : Nat) (ha : a < qFq) :
    ((sqrt a).isSome = true ↔ (a = 0 ∨ ∃ b, b < qFq ∧ montMul b b = a))
    ∧ ((sqrt a).isSome = true ↔ ct_quadratic_non_residue a = false)
    ∧ (∀ r, sqrt a = some r → montMul r r = a) := by
  refine ⟨?_, ?_, ?_⟩
  · rw [sqrt_isSome_iff, sqrt_accept_iff a ha, exists_square_iff a ha]
    exact zmod_sqrt_iff_square (res a)
  · rw [sqrt_isSome_iff, sqrt_accept_iff a ha, non_residue_iff]
    exact zmod_sqrt_iff (res a)
  · intro r hr
    unfold sqrt at hr
    split_ifs at hr with hc
    have heq := Option.some.inj hr
    rw [← heq]
    exact hc

/-- Closed witness for C1, instantiated at the additive identity. -/
theorem sqrt_residue_coherence_witness :
    0 < qFq ∧
    (((sqrt 0).isSome = true ↔ (0 = 0 ∨ ∃ b, b < qFq ∧ montMul b b = 0))
      ∧ ((sqrt 0).isSome = true ↔ ct_quadratic_non_residue 0 = false)
      ∧ (∀ r, sqrt 0 = some r → montMul r r = 0)) :=
  ⟨by decide, sqrt_residue_coherence 0 (by decide)⟩

/-- C3: `invert a` is absent exactly when `a` is the additive identity; any
present result equals `a^(q−2)` and multiplies with `a` to the multiplicative
identity. -/
theorem invert_correct (a : Nat) (ha : a < qFq) :
    (invert a = none ↔ a = 0)
    ∧ (∀ r, invert a = some r → r = pow a (qFq - 2) ∧ montMul a r = ONE) := by
  constructor
  · unfold invert
    split_ifs with h
    · simp [h]
    · simp [h]
  · intro r hr
    unfold invert at hr
    split_ifs at hr with h
    have hr' : pow a (qFq - 2) = r := Option.some.inj hr
    refine ⟨hr'.symm, ?_⟩
    rw [← hr']
    apply res_inj (montMul_lt _ _) (by decide : ONE < qFq)
    rw [res_montMul, res_pow _ _ (by decide : qFq - 2 < 2 ^ 256)]
    have hy : res a ≠ 0 := res_ne_zero ha h
    have hstep : res a * res a ^ (qFq - 2) = res a ^ (qFq - 1) := by
      rw [← pow_succ']
      congr 1
    rw [hstep, ZMod.pow_card_sub_one_eq_one hy]
    show (1 : ZMod qFq) = res ONE
    rw [show ONE = R from rfl, res_R]

/-- Closed witness for C3, instantiated at the Montgomery one. -/
theorem invert_correct_witness :
    R < qFq ∧
    ((invert R = none ↔ R = 0)
      ∧ (∀ r, invert R = some r → r = pow R (qFq - 2) ∧ montMul R r = ONE)) :=
  ⟨by decide, invert_correct R (by decide)⟩

end Fq

namespace Fq

theorem res_montMul_R2 (v : Nat) : res (montMul v R2) = (v : ZMod qFq) := res_from_raw v

theorem from_repr_spec (bytes : List Nat) (hlen : bytes.length = 32)
    (hb : ∀ x ∈ bytes, x < 256) :
    ((from_repr bytes).isSome = true ↔ leNat bytes < qFq)
    ∧ (∀ m, from_repr bytes = some m →
        m = montMul (leNat bytes) R2 ∧ toCanonical m = leNat bytes) := by
  have h0 := leNat_drop_take8_lt bytes hb 0
  have h1 := leNat_drop_take8_lt bytes hb 8
  have h2 := leNat_drop_take8_lt bytes hb 16
  have h3 := leNat_drop_take8_lt bytes hb 24
  have hsplit := leNat_split4 bytes hlen
  have hchain := borrowChain_iff _ _ _ _ h0 h1 h2 h3
  constructor
  · unfold from_repr
    split_ifs with hc
    · exact iff_of_true rfl (by rw [hsplit]; exact hchain.mp hc)
    · apply iff_of_false (by simp)
      rw [hsplit]
      intro hlt
      exact hc (hchain.mpr hlt)
  · intro m hm
    unfold from_repr at hm
    split_ifs at hm with hc
    have hm' := Option.some.inj hm
    have hlt : leNat bytes < qFq := by rw [hsplit]; exact hchain.mp hc
    constructor
    · rw [← hm', hsplit]
    · rw [← hm', ← hsplit]
      rw [toCanonical_eq_iff hlt]
      exact res_montMul_R2 (leNat bytes)

/-- C2: `from_repr` accepts a 32-byte buffer exactly when its little-endian
value is below the modulus, and a successful decode is the Montgomery lift
(multiplication by `R²`) of that value, hence represents it. -/
theorem from_repr_correct (bytes : List Nat) (hlen : bytes.length = 32)
    (hb : ∀ x ∈ bytes, x < 256) :
    ((from_repr bytes).isSome = true ↔ leNat bytes < qFq)
    ∧ (∀ m, from_repr bytes = some m →
        m = montMul (leNat bytes) R2 ∧ toCanonical m = leNat bytes) :=
  from_repr_spec bytes hlen hb

/-- Closed witness for C2, instantiated at the all-zero buffer. -/
theorem from_repr_correct_witness :
    (List.replicate 32 0).length = 32 ∧ (∀ x ∈ List.replicate 32 0, x < 256) ∧
    (((from_repr (List.replicate 32 0)).isSome = true ↔ leNat (List.replicate 32 0) < qFq)
      ∧ (∀ m, from_repr (List.replicate 32 0) = some m →
          m = montMul (leNat (List.replicate 32 0)) R2
          ∧ toCanonical m = leNat (List.replicate 32 0))) :=
  ⟨by decide, by simp, from_repr_correct _ (by decide) (by simp)⟩

/-- C5: decoding the canonical encoding of any valid field element returns
that element. -/
theorem from_repr_to_repr (m : Nat) (hm : m < qFq) : from_repr (to_repr m) = some m := by
  have hcan : toCanonical m < qFq := toCanonical_lt m
  have hlen : (to_repr m).length = 32 := leBytes_length 32 _
  have hb : ∀ x ∈ to_repr m, x < 256 := leBytes_bound 32 _
  have hle : leNat (to_repr m) = toCanonical m :=
    leNat_leBytes 32 _ (lt_trans hcan (by decide : qFq < 256 ^ 32))
  have hC2 := from_repr_spec (to_repr m) hlen hb
  have hsome : (from_repr (to_repr m)).isSome = true := hC2.1.mpr (by rw [hle]; exact hcan)
  obtain ⟨m', hm'⟩ := Option.isSome_iff_exists.mp hsome
  have hchar := hC2.2 m' hm'
  have hm'lt : m' < qFq := by rw [hchar.1]; exact montMul_lt _ _
  have heq : m' = m := by
    apply res_inj hm'lt hm
    rw [hchar.1, hle, res_montMul_R2]
    exact (res_eq_cast_toCanonical m).symm
  rw [hm', heq]

/-- Closed witness for C5, instantiated at the Montgomery one. -/
theorem from_repr_to_repr_witness :
    R < qFq ∧ from_repr (to_repr R) = some R :=
  ⟨by decide, from_repr_to_repr R (by decide)⟩

/-- C4: `from_uniform_bytes` reduces the 512-bit little-endian value of a
64-byte buffer modulo `q`, and maps the all-zero buffer to the additive
identity. -/
theorem from_uniform_bytes_correct (bytes : List Nat) (hlen : bytes.length = 64)
    (hb : ∀ x ∈ bytes, x < 256) :
    toCanonical (from_uniform_bytes bytes) = leNat bytes % qFq
    ∧ from_uniform_bytes (List.replicate 64 0) = ZERO := by
  constructor
  · have hsplit := leNat_split8 bytes hlen
    rw [toCanonical_eq_iff (Nat.mod_lt _ qFq_pos), ZMod.natCast_mod]
    unfold from_uniform_bytes from_u512
    rw [res_montAdd, res_montMul_R2, res_montMul_R3, hsplit]
    push_cast
    ring
  · decide

/-- Closed witness for C4, instantiated at the all-255 buffer. -/
theorem from_uniform_bytes_correct_witness :
    (List.replicate 64 255).length = 64 ∧ (∀ x ∈ List.replicate 64 255, x < 256) ∧
    (toCanonical (from_uniform_bytes (List.replicate 64 255))
        = leNat (List.replicate 64 255) % qFq
      ∧ from_uniform_bytes (List.replicate 64 0) = ZERO) :=
  ⟨by decide, by simp, from_uniform_bytes_correct _ (by decide) (by simp)⟩

/-- C6: the raw codec accepts a serialized limb vector exactly when the
less-than-modulus predicate holds, which is the same acceptance condition as
the canonical codec `from_repr`. -/
theorem raw_codec_acceptance (m : Nat) (hm : m < 2 ^ 256) :
    ((from_raw_bytes (to_raw_bytes m)).isSome = true ↔ is_less_than_modulus m = true)
    ∧ (∀ bytes, bytes.length = 32 → (∀ x ∈ bytes, x < 256) →
        ((from_raw_bytes bytes).isSome = true ↔ (from_repr bytes).isSome = true)) := by
  constructor
  · have hround : leNat (to_raw_bytes m) = m :=
      leNat_leBytes 32 _ (by rw [show (256:Nat) ^ 32 = 2 ^ 256 from by norm_num]; exact hm)
    unfold from_raw_bytes
    rw [hround]
    split_ifs with hc
    · exact iff_of_true rfl hc
    · exact iff_of_false (by simp) hc
  · intro bytes hlen hb
    have hC2 := (from_repr_spec bytes hlen hb).1
    unfold from_raw_bytes
    split_ifs with hc
    · apply iff_of_true rfl
      rw [hC2]
      unfold is_less_than_modulus at hc
      exact of_decide_eq_true hc
    · apply iff_of_false (by simp)
      rw [hC2]
      unfold is_less_than_modulus at hc
      simpa using hc

/-- Closed witness for C6, instantiated at the limb value `q` (out of range). -/
theorem raw_codec_acceptance_witness :
    qFq < 2 ^ 256 ∧
    (((from_raw_bytes (to_raw_bytes qFq)).isSome = true ↔ is_less_than_modulus qFq = true)
      ∧ (∀ bytes, bytes.length = 32 → (∀ x ∈ bytes, x < 256) →
          ((from_raw_bytes bytes).isSome = true ↔ (from_repr bytes).isSome = true))) :=
  ⟨by decide, raw_codec_acceptance qFq (by decide)⟩

/-- C7 counterexample: the code's `DELTA` constant is `9`, which differs from
`generator^(2^S)` with `S = 0` (that power is the generator `3` itself). -/
theorem delta_claim_counterexample : ¬ DELTA = pow MULTIPLICATIVE_GENERATOR (2 ^ S) := by
  decide

/-- C7 amended: `DELTA` equals `generator^(2^1)`, i.e. the square of the
multiplicative generator, whose canonical value is 9 — not `generator^(2^S)`
with `S = 0`. -/
theorem delta_amended :
    DELTA = pow MULTIPLICATIVE_GENERATOR (2 ^ 1) ∧ toCanonical DELTA = 9 := by
  decide

/-- C8: `ZETA` is a primitive cube root of unity: `ZETA³` is the
multiplicative identity while `ZETA²` is not. -/
theorem zeta_cube_root :
    montMul (montMul ZETA ZETA) ZETA = ONE ∧ montMul ZETA ZETA ≠ ONE := by
  decide

/-- C10: `ROOT_OF_UNITY` and `ROOT_OF_UNITY_INV` are the same constant, built
from the raw limb value `q − 1` (the field element `−1`); their product is the
multiplicative identity, and the `2^S`-th power (`S = 0`) is `−1`, not `1`. -/
theorem root_of_unity_constants :
    ROOT_OF_UNITY = ROOT_OF_UNITY_INV
    ∧ limbs4 0x3c208c16d87cfd46 0x97816a916871ca8d 0xb85045b68181585d 0x30644e72e131a029
        = qFq - 1
    ∧ toCanonical ROOT_OF_UNITY = qFq - 1
    ∧ montMul ROOT_OF_UNITY ROOT_OF_UNITY_INV = ONE
    ∧ pow ROOT_OF_UNITY (2 ^ S) = NEGATIVE_ONE
    ∧ pow ROOT_OF_UNITY (2 ^ S) ≠ ONE := by
  decide

end Fq
